import Mathlib

/-!
Verification of the money-idea-generator repository: a shallow embedding of
the asset-pool record store (`scripts/asset_pool.py`) and the idea
analyzer/scorer/ranker (`scripts/idea_analyzer.py`, constants from
`scripts/config.py`), with theorems settling the specification claims.

Conventions of the embedding:
* Python dictionaries become Lean structures; keys read with `.get(k, d)`
  become fields holding the defaulted value.
* Python `datetime.now()` timestamps become explicit `String` parameters.
* Python numbers become `Int` where the source only ever holds integers and
  `ℚ` where true division or the literal `0.5` occurs.
* Python substring tests (`k in s`) become `hasSub`; `str.lower()` becomes
  `strLower`, character-wise ASCII lowercasing.
-/

/-! ### String helpers: Python's `k in s` substring containment -/

/-- Does `pat` match a prefix of `l`? (helper for substring containment). -/
def matchesAt : List Char → List Char → Bool
  | [], _ => true
  | _ :: _, [] => false
  | p :: ps, c :: cs => p == c && matchesAt ps cs

/-- Does `pat` occur contiguously inside `l`? -/
def hasSubList (pat : List Char) : List Char → Bool
  | [] => matchesAt pat []
  | c :: cs => matchesAt pat (c :: cs) || hasSubList pat cs

/-- Python's `pat in s` substring containment on strings. -/
def hasSub (s pat : String) : Bool :=
  hasSubList pat.data s.data

/-- Python's `str.lower()`: character-wise lowercasing. -/
def strLower (s : String) : String :=
  String.mk (s.data.map Char.toLower)

/-! ### Constants from `scripts/config.py` and the keyword lists inlined in
`scripts/idea_analyzer.py` -/

/-- `ai_keywords` in `IdeaAnalyzer.analyze_potential`. -/
def aiKeywords : List String :=
  ["ai", "llm", "gpt", "chatgpt", "claude", "agent", "openai", "anthropic"]

/-- `hot_languages` in `IdeaAnalyzer.analyze_potential`. -/
def hotLanguages : List String :=
  ["python", "typescript", "rust", "go"]

/-- `monetization_keywords` in `IdeaAnalyzer.analyze_potential`. -/
def monetizationKeywords : List String :=
  ["api", "sdk", "cli", "framework", "platform", "tool",
   "automation", "chatbot", "assistant", "dashboard"]

/-- The `['library', 'package']` list in `IdeaAnalyzer.analyze_potential`. -/
def libraryKeywords : List String :=
  ["library", "package"]

/-- Keywords selecting `consulting` in `_analyze_suitable_types`. -/
def consultingKeywords : List String :=
  ["framework", "platform", "architecture"]

/-- Keywords selecting `training` in `_analyze_suitable_types`. -/
def trainingKeywords : List String :=
  ["tutorial", "guide", "learn"]

/-- Keywords selecting `customization` in `_analyze_suitable_types`. -/
def customizationKeywords : List String :=
  ["enterprise", "business", "saas", "api"]

/-- One entry of `IDEA_TEMPLATES` in `scripts/config.py`.  `time_range` is
rational because the `consulting` template uses `0.5`. -/
structure IdeaTemplate where
  tname : String
  tdescription : String
  target_users : List String
  cost_range : Int × Int
  income_range : Int × Int
  time_range : ℚ × ℚ
  deriving DecidableEq

/-- The `deployment_service` template of `IDEA_TEMPLATES`. -/
def tplDeployment : IdeaTemplate :=
  { tname := "{project_name} 部署服务"
    tdescription := "帮助用户部署 {project_name}，提供技术支持"
    target_users := ["技术小白", "企业用户", "创业者"]
    cost_range := (100, 500)
    income_range := (2000, 10000)
    time_range := (1, 3) }

/-- The `consulting` template of `IDEA_TEMPLATES`. -/
def tplConsulting : IdeaTemplate :=
  { tname := "{project_name} 技术咨询"
    tdescription := "提供 {project_name} 技术咨询和方案设计"
    target_users := ["企业", "创业者", "产品经理"]
    cost_range := (0, 100)
    income_range := (5000, 20000)
    time_range := (1/2, 2) }

/-- The `training` template of `IDEA_TEMPLATES`. -/
def tplTraining : IdeaTemplate :=
  { tname := "{project_name} 培训课程"
    tdescription := "制作 {project_name} 使用教程和培训课程"
    target_users := ["学习者", "开发者", "企业员工"]
    cost_range := (0, 200)
    income_range := (1000, 50000)
    time_range := (3, 7) }

/-- The `customization` template of `IDEA_TEMPLATES`. -/
def tplCustomization : IdeaTemplate :=
  { tname := "{project_name} 定制开发"
    tdescription := "为用户定制开发基于 {project_name} 的功能"
    target_users := ["企业", "创业者", "产品团队"]
    cost_range := (500, 2000)
    income_range := (5000, 50000)
    time_range := (7, 30) }

/-- `IDEA_TEMPLATES` from `scripts/config.py`, as an association list keyed by
idea type. -/
def IDEA_TEMPLATES : List (String × IdeaTemplate) :=
  [("deployment_service", tplDeployment),
   ("consulting", tplConsulting),
   ("training", tplTraining),
   ("customization", tplCustomization)]

/-! ### `scripts/idea_analyzer.py`: the potential scorer -/

/-- A project descriptor as read by the analyzer: each field holds the value
of `project.get(key, default)`. -/
structure Project where
  pname : String
  stars : Int
  trending_stars : Int
  description : String
  language : String
  url : String
  deriving DecidableEq

/-- Band 1 of `analyze_potential`: the stars score (up to 30 points). -/
def starsScore (stars : Int) : Int :=
  if stars > 1000 then 30
  else if stars > 500 then 25
  else if stars > 100 then 20
  else if stars > 50 then 15
  else 10

/-- Band 2 of `analyze_potential`: the trending-stars score (up to 25). -/
def trendingScore (trending_stars : Int) : Int :=
  if trending_stars > 100 then 25
  else if trending_stars > 50 then 20
  else if trending_stars > 20 then 15
  else if trending_stars > 10 then 10
  else 5

/-- Band 3 of `analyze_potential`: AI keywords (+15) and hot language (+5);
`language` and `description` are already lower-cased by the caller. -/
def techScore (language description : String) : Int :=
  (if aiKeywords.any (fun k => hasSub description k) then 15 else 0) +
  (if hotLanguages.contains language then 5 else 0)

/-- Band 4 of `analyze_potential`: monetization keywords (15/10/0). -/
def monetizationScore (description : String) : Int :=
  if monetizationKeywords.any (fun k => hasSub description k) then 15
  else if libraryKeywords.any (fun k => hasSub description k) then 10
  else 0

/-- Band 5 of `analyze_potential`: business-model keywords (10/7/5/0). -/
def businessScore (description : String) : Int :=
  if hasSub description "saas" || hasSub description "enterprise" then 10
  else if hasSub description "api" || hasSub description "service" then 7
  else if hasSub description "tool" || hasSub description "app" then 5
  else 0

/-- The tier chosen at the end of `analyze_potential` (高 high, 中 medium,
低 low). -/
def potentialOf (score : Int) : String :=
  if score ≥ 70 then "高"
  else if score ≥ 50 then "中"
  else "低"

/-- `IdeaAnalyzer.analyze_potential`: returns `(tier, score)`. -/
def analyzePotential (p : Project) : String × Int :=
  let language := strLower p.language
  let description := strLower p.description
  let score := starsScore p.stars + trendingScore p.trending_stars +
    techScore language description + monetizationScore description +
    businessScore description
  (potentialOf score, score)

/-- The `suitable` list built by the four append rules of
`_analyze_suitable_types` before the default is applied. -/
def suitableRules (stars : Int) (description : String) : List String :=
  (if stars > 50 then ["deployment_service"] else []) ++
  (if consultingKeywords.any (fun k => hasSub description k) then
    ["consulting"] else []) ++
  (if trainingKeywords.any (fun k => hasSub description k) ||
      decide (stars > 100) then ["training"] else []) ++
  (if customizationKeywords.any (fun k => hasSub description k) then
    ["customization"] else [])

/-- `IdeaAnalyzer._analyze_suitable_types`. -/
def analyzeSuitableTypes (p : Project) : List String :=
  let suitable := suitableRules p.stars (strLower p.description)
  if suitable = [] then ["deployment_service", "training"] else suitable

/-- User preferences as read by `_adjust_for_user`; the fields hold the values
of `preferences.get('budget', 1000)`, `preferences.get('time_available', 2)`
and `preferences.get('skills', [])`.  A Python `None` (or falsy empty dict)
argument is modelled as `none : Option Preferences`. -/
structure Preferences where
  budget : Int
  time_available : ℚ
  skills : List String
  deriving DecidableEq

/-- `IdeaAnalyzer._adjust_for_user`: returns `(cost, income, time_needed)`.
Python's `//` on integers is floor division, `Int.fdiv`. -/
def adjustForUser (t : IdeaTemplate) (preferences : Option Preferences) :
    Int × Int × ℚ :=
  match preferences with
  | none => (t.cost_range.1, t.income_range.1, t.time_range.1)
  | some pr =>
    let cost := min t.cost_range.2 (max t.cost_range.1 (Int.fdiv pr.budget 2))
    let time_needed := min t.time_range.2 (max t.time_range.1 pr.time_available)
    let income :=
      if pr.skills.any (fun s =>
          ["python", "ai", "web", "javascript"].contains (strLower s)) then
        Int.fdiv (t.income_range.1 + t.income_range.2) 2
      else t.income_range.1
    (cost, income, time_needed)

/-! ### `scripts/idea_analyzer.py`: the ranker -/

/-- An idea record as consumed by `rank_ideas` (the fields produced by
`generate_ideas` that the composite score reads, plus identifying payload).
Numeric fields are rational since the composite score divides them. -/
structure GeneratedIdea where
  gtype : String
  gname : String
  cost : ℚ
  expected_income : ℚ
  time_needed : ℚ
  deriving DecidableEq

/-- `get_score` inside `IdeaAnalyzer.rank_ideas`. -/
def getScore (idea : GeneratedIdea) : ℚ :=
  idea.expected_income / 1000 + 10 / max idea.time_needed 1 +
    10 / max (idea.cost / 100) 1

/-- `IdeaAnalyzer.rank_ideas`: Python's `sorted(ideas, key=get_score,
reverse=True)` is the stable descending sort by key, i.e. a stable merge sort
under the total preorder `getScore b ≤ getScore a`. -/
def rankIdeas (ideas : List GeneratedIdea) : List GeneratedIdea :=
  ideas.mergeSort (fun a b => decide (getScore b ≤ getScore a))

/-! ### `scripts/asset_pool.py`: the record store -/

/-- A persisted idea record.  `add_idea` always writes `id`, `created_at`,
`status`, `score`, `tags`; caller payload fields (`name`, `description`,
`type`) and later-written fields (`updated_at`, `notes`) are optional. -/
structure Idea where
  id : String
  iname : Option String
  idescription : Option String
  itype : Option String
  tags : List String
  status : String
  score : Int
  created_at : String
  updated_at : Option String
  inotes : Option String
  deriving DecidableEq

/-- One entry of an execution's `steps` list. -/
structure ExecStep where
  step : String
  sstatus : String
  timestamp : String
  deriving DecidableEq

/-- One entry of an execution's `logs` list. -/
structure ExecLog where
  log : String
  timestamp : String
  deriving DecidableEq

/-- A persisted execution record, as created by `start_execution`;
`completed_at` and `notes` are absent until `complete_execution`. -/
structure Execution where
  id : String
  idea_id : String
  started_at : String
  status : String
  steps : List ExecStep
  logs : List ExecLog
  completed_at : Option String
  enotes : Option String
  deriving DecidableEq

/-- A persisted revenue record, as created by `add_revenue`. -/
structure Revenue where
  id : String
  idea_id : String
  amount : ℚ
  source : String
  rnotes : Option String
  recorded_at : String
  deriving DecidableEq

/-- The in-memory state of an `AssetPool`: the three collections. -/
structure Pool where
  ideas : List Idea
  executions : List Execution
  revenues : List Revenue
  deriving DecidableEq

/-- The dictionary passed to `add_idea` by a caller: every key the method
touches may be present or absent. -/
structure IdeaInput where
  id : Option String
  iname : Option String
  idescription : Option String
  itype : Option String
  tags : Option (List String)
  status : Option String
  score : Option Int
  created_at : Option String
  updated_at : Option String
  inotes : Option String
  deriving DecidableEq

/-- Python truthiness of the optional `notes` argument (`if notes:`):
`None` and the empty string are falsy. -/
def notesTruthy : Option String → Bool
  | none => false
  | some s => !(s == "")

/-- The record stored by `AssetPool.add_idea`: it overwrites `id`,
`created_at`, `status`, `score` and defaults `tags` via
`idea.get('tags', [])`; all other caller fields pass through.  `ts` is the
`%Y%m%d%H%M%S`-formatted id timestamp and `now` the ISO timestamp. -/
def addIdeaRecord (input : IdeaInput) (ts now : String) : Idea :=
  { id := "idea-" ++ ts
    iname := input.iname
    idescription := input.idescription
    itype := input.itype
    tags := input.tags.getD []
    status := "pending"
    score := 0
    created_at := now
    updated_at := input.updated_at
    inotes := input.inotes }

/-- `AssetPool.add_idea`: append the freshly initialized record. -/
def poolAddIdea (p : Pool) (input : IdeaInput) (ts now : String) :
    Pool × String :=
  ({ p with ideas := p.ideas ++ [addIdeaRecord input ts now] }, "idea-" ++ ts)

/-- Update the first element satisfying `q` (the Python
`for x in xs: if match: mutate; return True` loop); `none` when no element
matches. -/
def updateFirst (q : α → Bool) (f : α → α) : List α → Option (List α)
  | [] => none
  | x :: xs =>
    if q x then some (f x :: xs)
    else (updateFirst q f xs).map (fun ys => x :: ys)

/-- The mutation `update_idea_status` performs on the matched idea. -/
def updateIdeaFields (status : String) (idea_notes : Option String)
    (now : String) (i : Idea) : Idea :=
  { i with
    status := status
    updated_at := some now
    inotes := if notesTruthy idea_notes then idea_notes else i.inotes }

/-- `AssetPool.update_idea_status`: update the first idea with the given id,
returning `True`; `False` (state unchanged) when the id is absent. -/
def updateIdeaStatus (p : Pool) (idea_id status : String)
    (idea_notes : Option String) (now : String) : Pool × Bool :=
  match updateFirst (fun i => i.id == idea_id)
      (updateIdeaFields status idea_notes now) p.ideas with
  | some ideas => ({ p with ideas := ideas }, true)
  | none => (p, false)

/-- `AssetPool.start_execution`: append a fresh `in_progress` execution, then
transition the referenced idea via `update_idea_status`.  `eid` is the
generated `exec-...` id and `now` the ISO timestamp. -/
def startExecution (p : Pool) (idea_id eid now : String) : Pool × String :=
  let e : Execution :=
    { id := eid, idea_id := idea_id, started_at := now,
      status := "in_progress", steps := [], logs := [],
      completed_at := none, enotes := none }
  let p1 : Pool := { p with executions := p.executions ++ [e] }
  ((updateIdeaStatus p1 idea_id "in_progress" none now).1, eid)

/-- `AssetPool.add_execution_step`. -/
def addExecutionStep (p : Pool) (exec_id step status now : String) :
    Pool × Bool :=
  match updateFirst (fun e => e.id == exec_id)
      (fun e => { e with
        steps := e.steps ++ [{ step := step, sstatus := status,
                               timestamp := now }] }) p.executions with
  | some es => ({ p with executions := es }, true)
  | none => (p, false)

/-- `AssetPool.add_execution_log`. -/
def addExecutionLog (p : Pool) (exec_id log now : String) : Pool × Bool :=
  match updateFirst (fun e => e.id == exec_id)
      (fun e => { e with
        logs := e.logs ++ [{ log := log, timestamp := now }] })
      p.executions with
  | some es => ({ p with executions := es }, true)
  | none => (p, false)

/-- The mutation `complete_execution` performs on the matched execution. -/
def completeExecFields (success : Bool) (c_notes : Option String)
    (now : String) (e : Execution) : Execution :=
  { e with
    status := if success then "success" else "failed"
    completed_at := some now
    enotes := if notesTruthy c_notes then c_notes else e.enotes }

/-- The loop body of `complete_execution`: update the first execution with
the given id and also report its `idea_id` (read after the mutation for the
cascading idea update). -/
def completeInList (exec_id : String) (success : Bool)
    (c_notes : Option String) (now : String) :
    List Execution → Option (List Execution × String)
  | [] => none
  | e :: es =>
    if e.id == exec_id then
      some (completeExecFields success c_notes now e :: es, e.idea_id)
    else
      (completeInList exec_id success c_notes now es).map
        (fun r => (e :: r.1, r.2))

/-- `AssetPool.complete_execution`: terminally stamp the matched execution,
then cascade to the linked idea via `update_idea_status`. -/
def completeExecution (p : Pool) (exec_id : String) (success : Bool)
    (c_notes : Option String) (now : String) : Pool × Bool :=
  match completeInList exec_id success c_notes now p.executions with
  | none => (p, false)
  | some (es, iid) =>
    let p1 : Pool := { p with executions := es }
    ((updateIdeaStatus p1 iid (if success then "completed" else "failed")
        c_notes now).1, true)

/-- `AssetPool.add_revenue`: append an immutable revenue record.  `rid` is
the generated `rev-...` id. -/
def addRevenue (p : Pool) (idea_id : String) (amount : ℚ)
    (source : String) (r_notes : Option String) (rid now : String) :
    Pool × String :=
  ({ p with revenues := p.revenues ++
      [{ id := rid, idea_id := idea_id, amount := amount, source := source,
         rnotes := r_notes, recorded_at := now }] }, rid)

/-- One mutating record-store operation, with all timestamps and generated
ids made explicit. -/
inductive PoolOp where
  | addIdea (input : IdeaInput) (ts now : String)
  | updateIdea (idea_id status : String) (idea_notes : Option String)
      (now : String)
  | startExec (idea_id eid now : String)
  | addStep (exec_id step status now : String)
  | addLog (exec_id log now : String)
  | completeExec (exec_id : String) (success : Bool)
      (c_notes : Option String) (now : String)
  | addRev (idea_id : String) (amount : ℚ) (source : String)
      (r_notes : Option String) (rid now : String)
  deriving DecidableEq

/-- Apply one operation to the pool state (return values dropped). -/
def applyOp (p : Pool) : PoolOp → Pool
  | .addIdea input ts now => (poolAddIdea p input ts now).1
  | .updateIdea idea_id status idea_notes now =>
      (updateIdeaStatus p idea_id status idea_notes now).1
  | .startExec idea_id eid now => (startExecution p idea_id eid now).1
  | .addStep exec_id step status now =>
      (addExecutionStep p exec_id step status now).1
  | .addLog exec_id log now => (addExecutionLog p exec_id log now).1
  | .completeExec exec_id success c_notes now =>
      (completeExecution p exec_id success c_notes now).1
  | .addRev idea_id amount source r_notes rid now =>
      (addRevenue p idea_id amount source r_notes rid now).1

/-- Run a sequence of record-store operations. -/
def runOps (p : Pool) (ops : List PoolOp) : Pool :=
  ops.foldl applyOp p

/-! ### `AssetPool._load_json` / `_load_data`: construction from files -/

/-- The observable outcome of reading one backing file: `none` when the file
is missing, `some (Except.error ())` when reading or JSON-parsing raises,
`some (Except.ok v)` when it parses to a record list. -/
def FileRead (α : Type) : Type :=
  Option (Except Unit α)

/-- `AssetPool._load_json`: the parsed value, or the default on a missing
file or any exception. -/
def loadJson (file : FileRead α) (dflt : α) : α :=
  match file with
  | some (Except.ok v) => v
  | some (Except.error _) => dflt
  | none => dflt

/-- The three backing files seen at construction time. -/
structure BackingFiles where
  ideasFile : FileRead (List Idea)
  execsFile : FileRead (List Execution)
  revsFile : FileRead (List Revenue)

/-- `AssetPool._load_data`: eagerly load the three collections. -/
def loadData (f : BackingFiles) : Pool :=
  { ideas := loadJson f.ideasFile []
    executions := loadJson f.execsFile []
    revenues := loadJson f.revsFile [] }

/-- A backing file whose content is missing, unreadable or not valid JSON. -/
def badFile (file : FileRead α) : Prop :=
  file = none ∨ file = some (Except.error ())

/-! ### Helper predicates for the claims -/

/-- Terminal execution statuses. -/
def isTerminal (s : String) : Bool :=
  s == "success" || s == "failed"

/-- The (id, status, completed_at) projection of an execution: the data the
single-transition invariant speaks about. -/
def execMeta (e : Execution) : String × String × Option String :=
  (e.id, e.status, e.completed_at)

/-- Is the operation a `complete_execution` call? -/
def isCompleteOp : PoolOp → Bool
  | .completeExec _ _ _ _ => true
  | _ => false

/-! ### Concrete instances used by witnesses and counterexamples -/

/-- A descriptor with 10 stars and an empty description (C6). -/
def pC6 : Project :=
  { pname := "p", stars := 10, trending_stars := 0, description := "",
    language := "", url := "" }

/-- First idea record of the C5 witness (income 1000, time 1, cost 100). -/
def gA : GeneratedIdea :=
  { gtype := "deployment_service", gname := "A", cost := 100,
    expected_income := 1000, time_needed := 1 }

/-- Second idea record of the C5 witness, same numbers as `gA`. -/
def gB : GeneratedIdea :=
  { gtype := "training", gname := "B", cost := 100,
    expected_income := 1000, time_needed := 1 }

/-- An execution already completed with status `success` (C1). -/
def execC1 : Execution :=
  { id := "e1", idea_id := "i1", started_at := "t0", status := "success",
    steps := [], logs := [], completed_at := some "tc", enotes := none }

/-- A pool holding only `execC1` (C1). -/
def poolC1 : Pool :=
  { ideas := [], executions := [execC1], revenues := [] }

/-- An idea already in status `in_progress`, last updated at `u0` (C9). -/
def ideaC9 : Idea :=
  { id := "i1", iname := none, idescription := none, itype := none,
    tags := [], status := "in_progress", score := 0, created_at := "t0",
    updated_at := some "u0", inotes := none }

/-- A pool holding only `ideaC9` (C9). -/
def poolC9 : Pool :=
  { ideas := [ideaC9], executions := [], revenues := [] }

/-- A pending idea with id `i1` (C8). -/
def ideaC8 : Idea :=
  { id := "i1", iname := none, idescription := none, itype := none,
    tags := [], status := "pending", score := 0, created_at := "t0",
    updated_at := none, inotes := none }

/-- A pool holding only `ideaC8` (C8). -/
def poolC8 : Pool :=
  { ideas := [ideaC8], executions := [], revenues := [] }

/-- Backing files that are missing, corrupt and missing respectively (C2). -/
def filesBadAll : BackingFiles :=
  { ideasFile := none, execsFile := some (Except.error ()), revsFile := none }

/-- An `add_idea` input that already carries id, timestamps, a terminal
status and a nonzero score (C10). -/
def inputC10 : IdeaInput :=
  { id := some "idea-old", iname := some "n", idescription := some "d",
    itype := some "consulting", tags := some ["AI"],
    status := some "completed", score := some 85,
    created_at := some "2020-01-01", updated_at := none, inotes := none }

/-! ### Helper lemmas -/

/-- `_load_json` returns the default on a missing or unreadable file. -/
lemma loadJson_bad {α : Type} (file : FileRead α) (dflt : α)
    (h : badFile file) : loadJson file dflt = dflt := by
  rcases h with rfl | rfl <;> rfl

/-- Taking the first `l.length` elements of a mapped copy of `l` keeps it. -/
lemma take_map_self {α β : Type} (l : List α) (f : α → β) :
    (l.map f).take l.length = l.map f := by
  rw [← List.length_map l f]
  exact List.take_length _

/-- Taking the first `l.length` elements of a mapped copy of `l ++ m`
yields the mapped copy of `l`. -/
lemma take_map_append {α β : Type} (l m : List α) (f : α → β) :
    ((l ++ m).map f).take l.length = l.map f := by
  rw [List.map_append, ← List.length_map l f]
  exact List.take_left _ _

/-- `updateFirst` finds nothing exactly when nothing matches. -/
lemma updateFirst_eq_none {α : Type} (q : α → Bool) (f : α → α)
    (l : List α) :
    updateFirst q f l = none ↔ ∀ a ∈ l, q a = false := by
  induction l with
  | nil => simp [updateFirst]
  | cons x xs ih =>
    by_cases hx : q x = true
    · simp [updateFirst, hx]
    · rw [updateFirst, if_neg hx]
      cases hu : updateFirst q f xs with
      | none =>
        simp only [Option.map_none', true_iff, List.mem_cons]
        intro a ha
        rcases ha with rfl | ha
        · exact Bool.eq_false_iff.mpr hx
        · exact (ih.mp hu) a ha
      | some ys =>
        simp only [Option.map_some', List.mem_cons]
        constructor
        · intro h; exact absurd h (by simp)
        · intro h
          have : updateFirst q f xs = none :=
            ih.mpr (fun a ha => h a (Or.inr ha))
          rw [this] at hu
          exact absurd hu (by simp)

/-- `updateFirst` at the first matching index replaces that element. -/
lemma updateFirst_eq_set {α : Type} (q : α → Bool) (f : α → α) :
    ∀ (l : List α) (k : Nat) (a : α),
      l[k]? = some a → q a = true →
      (∀ j b, j < k → l[j]? = some b → q b = false) →
      updateFirst q f l = some (l.set k (f a))
  | [], k, a, hk, _, _ => by simp at hk
  | x :: xs, 0, a, hk, ha, _ => by
    simp only [List.getElem?_cons_zero, Option.some.injEq] at hk
    subst hk
    simp [updateFirst, ha]
  | x :: xs, k + 1, a, hk, ha, hmin => by
    have hx : q x = false := hmin 0 x (Nat.succ_pos k) (by simp)
    simp only [List.getElem?_cons_succ] at hk
    have ihres := updateFirst_eq_set q f xs k a hk ha
      (fun j b hj hb => hmin (j + 1) b (Nat.succ_lt_succ hj) (by simpa using hb))
    rw [updateFirst, if_neg (by simp [hx]), ihres]
    rfl

/-- `updateFirst` with a projection-preserving update preserves the
projected list. -/
lemma updateFirst_map_eq {α β : Type} (q : α → Bool) (f : α → α)
    (proj : α → β) (hf : ∀ a, proj (f a) = proj a) :
    ∀ (l l' : List α), updateFirst q f l = some l' →
      l'.map proj = l.map proj
  | [], l', h => by simp [updateFirst] at h
  | x :: xs, l', h => by
    rw [updateFirst] at h
    by_cases hx : q x = true
    · rw [if_pos hx] at h
      cases h
      simp [hf]
    · rw [if_neg hx] at h
      cases hu : updateFirst q f xs with
      | none => rw [hu] at h; simp at h
      | some ys =>
        rw [hu] at h
        simp only [Option.map_some', Option.some.injEq] at h
        subst h
        simp [updateFirst_map_eq q f proj hf xs ys hu]

/-- `update_idea_status` with an absent id is a no-op returning `False`. -/
lemma updateIdeaStatus_not_found (p : Pool) (idea_id status : String)
    (idea_notes : Option String) (now : String)
    (h : ∀ i ∈ p.ideas, i.id ≠ idea_id) :
    updateIdeaStatus p idea_id status idea_notes now = (p, false) := by
  rw [updateIdeaStatus,
    (updateFirst_eq_none _ _ _).mpr (fun i hi => by simp [h i hi])]

/-- `update_idea_status` at the first idea with the given id replaces
exactly that record and returns `True`. -/
lemma updateIdeaStatus_found (p : Pool) (idea_id status : String)
    (idea_notes : Option String) (now : String) (k : Nat) (i : Idea)
    (hk : p.ideas[k]? = some i) (hid : i.id = idea_id)
    (hfirst : ∀ j b, j < k → p.ideas[j]? = some b → b.id ≠ idea_id) :
    updateIdeaStatus p idea_id status idea_notes now =
      ({ p with ideas :=
          p.ideas.set k (updateIdeaFields status idea_notes now i) }, true) := by
  rw [updateIdeaStatus, updateFirst_eq_set _ _ p.ideas k i hk (by simp [hid])
    (fun j b hj hb => by simp [hfirst j b hj hb])]

/-- `update_idea_status` never touches the executions collection. -/
lemma updateIdeaStatus_executions (p : Pool) (idea_id status : String)
    (idea_notes : Option String) (now : String) :
    (updateIdeaStatus p idea_id status idea_notes now).1.executions =
      p.executions := by
  rw [updateIdeaStatus]
  cases updateFirst (fun i => i.id == idea_id)
    (updateIdeaFields status idea_notes now) p.ideas <;> rfl

/-- `update_idea_status` never touches the revenues collection. -/
lemma updateIdeaStatus_revenues (p : Pool) (idea_id status : String)
    (idea_notes : Option String) (now : String) :
    (updateIdeaStatus p idea_id status idea_notes now).1.revenues =
      p.revenues := by
  rw [updateIdeaStatus]
  cases updateFirst (fun i => i.id == idea_id)
    (updateIdeaFields status idea_notes now) p.ideas <;> rfl

/-- The loop of `complete_execution`, characterized: a success means the
first matching execution was replaced by its terminally-stamped copy. -/
lemma completeInList_some (exec_id : String) (success : Bool)
    (c_notes : Option String) (now : String) :
    ∀ (l l' : List Execution) (iid : String),
      completeInList exec_id success c_notes now l = some (l', iid) →
      ∃ k e, l[k]? = some e ∧ e.id = exec_id ∧ iid = e.idea_id ∧
        l' = l.set k (completeExecFields success c_notes now e)
  | [], l', iid, h => by simp [completeInList] at h
  | x :: xs, l', iid, h => by
    rw [completeInList] at h
    by_cases hx : x.id == exec_id
    · rw [if_pos hx] at h
      simp only [Option.some.injEq, Prod.mk.injEq] at h
      obtain ⟨hl, hiid⟩ := h
      exact ⟨0, x, by simp, by simpa using hx, hiid.symm, hl.symm⟩
    · rw [if_neg hx] at h
      cases hu : completeInList exec_id success c_notes now xs with
      | none => rw [hu] at h; simp at h
      | some r =>
        rw [hu] at h
        simp only [Option.map_some', Option.some.injEq] at h
        injection h with hl hiid2
        subst hl
        subst hiid2
        obtain ⟨k, e, hk, hid, hiid, hset⟩ :=
          completeInList_some exec_id success c_notes now xs r.1 r.2 hu
        refine ⟨k + 1, e, by simpa using hk, hid, hiid, ?_⟩
        simp [hset]

/-- Updating an idea that is already `in_progress` to `in_progress` with no
notes changes only `updated_at`. -/
lemma updateIdeaFields_in_progress (now : String) (i : Idea)
    (hst : i.status = "in_progress") :
    updateIdeaFields "in_progress" none now i =
      { i with updated_at := some now } := by
  cases i
  simp only [updateIdeaFields, notesTruthy]
  simp_all

/-! ### Claim theorems -/

/-- C3: the scorer's popularity band contributes exactly 30 when stars
strictly exceed 1000, 25 on (500, 1000] (so stars = 1000 gets 25), 20 on
(100, 500], 15 on (50, 100], and 10 otherwise. -/
theorem C3_popularity_band (stars : Int) :
    (1000 < stars → starsScore stars = 30) ∧
    (500 < stars → stars ≤ 1000 → starsScore stars = 25) ∧
    (100 < stars → stars ≤ 500 → starsScore stars = 20) ∧
    (50 < stars → stars ≤ 100 → starsScore stars = 15) ∧
    (stars ≤ 50 → starsScore stars = 10) := by
  unfold starsScore
  refine ⟨?_, ?_, ?_, ?_, ?_⟩ <;> intros <;> split_ifs <;> omega

/-- C3 witness: the band at the 1000 boundary and just above it. -/
theorem C3_popularity_band_witness :
    starsScore 1000 = 25 ∧ starsScore 1001 = 30 ∧ starsScore 500 = 20 ∧
    starsScore 100 = 15 ∧ starsScore 50 = 10 :=
  ⟨(C3_popularity_band 1000).2.1 (by decide) (by decide),
   (C3_popularity_band 1001).1 (by decide),
   (C3_popularity_band 500).2.2.1 (by decide) (by decide),
   (C3_popularity_band 100).2.2.2.1 (by decide) (by decide),
   (C3_popularity_band 50).2.2.2.2 (by decide)⟩

/-- C4: the tier returned by `analyze_potential` is 高 (high) iff the score
is ≥ 70, 中 (medium) iff it is in [50, 70), and 低 (low) iff it is < 50. -/
theorem C4_tier_boundaries (p : Project) :
    ((analyzePotential p).1 = "高" ↔ 70 ≤ (analyzePotential p).2) ∧
    ((analyzePotential p).1 = "中" ↔
      50 ≤ (analyzePotential p).2 ∧ (analyzePotential p).2 < 70) ∧
    ((analyzePotential p).1 = "低" ↔ (analyzePotential p).2 < 50) := by
  have h : (analyzePotential p).1 = potentialOf (analyzePotential p).2 := rfl
  rw [h]
  generalize (analyzePotential p).2 = s
  unfold potentialOf
  split_ifs with h1 h2
  · exact ⟨⟨fun _ => h1, fun _ => rfl⟩,
      ⟨fun hc => absurd hc (by decide), fun hc => absurd hc.2 (by omega)⟩,
      ⟨fun hc => absurd hc (by decide), fun hlt => absurd hlt (by omega)⟩⟩
  · exact ⟨⟨fun hc => absurd hc (by decide), fun hle => absurd hle h1⟩,
      ⟨fun _ => ⟨h2, by omega⟩, fun _ => rfl⟩,
      ⟨fun hc => absurd hc (by decide), fun hlt => absurd hlt (by omega)⟩⟩
  · exact ⟨⟨fun hc => absurd hc (by decide), fun hle => absurd hle h1⟩,
      ⟨fun hc => absurd hc (by decide), fun hc => absurd hc.1 h2⟩,
      ⟨fun _ => by omega, fun _ => rfl⟩⟩

/-- C6: `_analyze_suitable_types` never returns an empty list, and on a
descriptor with 10 stars whose description matches no rule keyword set it
returns exactly `[deployment_service, training]`. -/
theorem C6_suitable_types (p : Project) :
    analyzeSuitableTypes p ≠ [] ∧
    (p.stars = 10 →
      consultingKeywords.any (fun k => hasSub (strLower p.description) k) = false →
      trainingKeywords.any (fun k => hasSub (strLower p.description) k) = false →
      customizationKeywords.any (fun k => hasSub (strLower p.description) k) = false →
      analyzeSuitableTypes p = ["deployment_service", "training"]) := by
  constructor
  · simp only [analyzeSuitableTypes]
    split
    · simp
    · assumption
  · intro h10 hc ht hcu
    simp only [analyzeSuitableTypes, suitableRules, h10, hc, ht, hcu]
    norm_num

/-- C6 witness: the descriptor `pC6` (10 stars, empty description). -/
theorem C6_suitable_types_witness :
    analyzeSuitableTypes pC6 ≠ [] ∧
    analyzeSuitableTypes pC6 = ["deployment_service", "training"] :=
  ⟨(C6_suitable_types pC6).1,
   (C6_suitable_types pC6).2 rfl (by decide) (by decide) (by decide)⟩

/-- C7: for every catalog template, `_adjust_for_user` keeps cost and
time_needed within the template's inclusive range for every preference
input, and with no preferences all three outputs are the template minima. -/
theorem C7_adjust_bounds (tkey : String) (t : IdeaTemplate)
    (hmem : (tkey, t) ∈ IDEA_TEMPLATES) (prefs : Option Preferences) :
    (t.cost_range.1 ≤ (adjustForUser t prefs).1 ∧
     (adjustForUser t prefs).1 ≤ t.cost_range.2 ∧
     t.time_range.1 ≤ (adjustForUser t prefs).2.2 ∧
     (adjustForUser t prefs).2.2 ≤ t.time_range.2) ∧
    adjustForUser t none = (t.cost_range.1, t.income_range.1, t.time_range.1) := by
  have hc : t.cost_range.1 ≤ t.cost_range.2 ∧ t.time_range.1 ≤ t.time_range.2 := by
    simp only [IDEA_TEMPLATES, List.mem_cons, List.not_mem_nil, or_false,
      Prod.mk.injEq] at hmem
    rcases hmem with ⟨-, rfl⟩ | ⟨-, rfl⟩ | ⟨-, rfl⟩ | ⟨-, rfl⟩ <;>
      constructor <;>
      norm_num [tplDeployment, tplConsulting, tplTraining, tplCustomization]
  refine ⟨?_, rfl⟩
  match prefs with
  | none => exact ⟨le_refl _, hc.1, le_refl _, hc.2⟩
  | some pr =>
    refine ⟨?_, ?_, ?_, ?_⟩
    · exact le_min hc.1 (le_max_left _ _)
    · exact min_le_left _ _
    · exact le_min hc.2 (le_max_left _ _)
    · exact min_le_left _ _

/-- C7 witness: the deployment template with a zero-budget preference and
with no preferences. -/
theorem C7_adjust_bounds_witness :
    (tplDeployment.cost_range.1 ≤
      (adjustForUser tplDeployment (some ⟨0, 0, []⟩)).1 ∧
     (adjustForUser tplDeployment (some ⟨0, 0, []⟩)).1 ≤
      tplDeployment.cost_range.2 ∧
     tplDeployment.time_range.1 ≤
      (adjustForUser tplDeployment (some ⟨0, 0, []⟩)).2.2 ∧
     (adjustForUser tplDeployment (some ⟨0, 0, []⟩)).2.2 ≤
      tplDeployment.time_range.2) ∧
    adjustForUser tplDeployment none =
      (tplDeployment.cost_range.1, tplDeployment.income_range.1,
       tplDeployment.time_range.1) :=
  C7_adjust_bounds "deployment_service" tplDeployment
    (by simp [IDEA_TEMPLATES]) (some ⟨0, 0, []⟩)

/-- C5: `rank_ideas` returns a permutation of its input that is sorted in
non-increasing order of the composite score, and the sort is stable: a pair
of ideas with equal composite scores keeps its relative input order. -/
theorem C5_rank_ideas (ideas : List GeneratedIdea) :
    List.Perm (rankIdeas ideas) ideas ∧
    (rankIdeas ideas).Pairwise (fun a b => getScore b ≤ getScore a) ∧
    (∀ a b, List.Sublist [a, b] ideas → getScore a = getScore b →
      List.Sublist [a, b] (rankIdeas ideas)) := by
  have htrans : ∀ a b c : GeneratedIdea,
      decide (getScore b ≤ getScore a) →
      decide (getScore c ≤ getScore b) →
      decide (getScore c ≤ getScore a) := by
    intro a b c hab hbc
    simp only [decide_eq_true_eq] at *
    exact le_trans hbc hab
  have htotal : ∀ a b : GeneratedIdea,
      decide (getScore b ≤ getScore a) || decide (getScore a ≤ getScore b) := by
    intro a b
    simp only [Bool.or_eq_true, decide_eq_true_eq]
    exact le_total _ _
  refine ⟨List.mergeSort_perm ideas _, ?_, ?_⟩
  · have h := List.sorted_mergeSort htrans htotal ideas
    exact h.imp (fun hab => of_decide_eq_true hab)
  · intro a b hsub heq
    exact List.pair_sublist_mergeSort htrans htotal
      (by simp [heq]) hsub

/-- C5 witness: two ideas with identical numbers stay in input order. -/
theorem C5_rank_ideas_witness :
    getScore gA = getScore gB ∧
    List.Sublist [gA, gB] (rankIdeas [gA, gB]) :=
  ⟨rfl, (C5_rank_ideas [gA, gB]).2.2 gA gB (List.Sublist.refl _) rfl⟩

/-- C10: `add_idea` overwrites caller-supplied `id`, `created_at`, `status`
and `score` (fresh `idea-`-prefixed id, fresh `created_at`, status
`pending`, score 0) for every input, and preserves a caller-supplied `tags`
value (defaulting it to `[]`); the record is appended to the pool. -/
theorem C10_add_idea (input : IdeaInput) (ts now : String) (p : Pool) :
    (addIdeaRecord input ts now).id = "idea-" ++ ts ∧
    (addIdeaRecord input ts now).created_at = now ∧
    (addIdeaRecord input ts now).status = "pending" ∧
    (addIdeaRecord input ts now).score = 0 ∧
    (addIdeaRecord input ts now).tags = input.tags.getD [] ∧
    poolAddIdea p input ts now =
      ({ p with ideas := p.ideas ++ [addIdeaRecord input ts now] },
       "idea-" ++ ts) :=
  ⟨rfl, rfl, rfl, rfl, rfl, rfl⟩

/-- `add_execution_step` never changes any execution's id, status or
completion timestamp. -/
lemma addExecutionStep_meta (p : Pool) (exec_id step status now : String) :
    (addExecutionStep p exec_id step status now).1.executions.map execMeta =
      p.executions.map execMeta := by
  unfold addExecutionStep
  split
  · rename_i es hu
    refine updateFirst_map_eq _ _ execMeta ?_ p.executions es hu
    intro a
    rfl
  · rfl

/-- `add_execution_log` never changes any execution's id, status or
completion timestamp. -/
lemma addExecutionLog_meta (p : Pool) (exec_id log now : String) :
    (addExecutionLog p exec_id log now).1.executions.map execMeta =
      p.executions.map execMeta := by
  unfold addExecutionLog
  split
  · rename_i es hu
    refine updateFirst_map_eq _ _ execMeta ?_ p.executions es hu
    intro a
    rfl
  · rfl

/-- `start_execution` appends exactly one fresh execution record. -/
lemma startExecution_executions (p : Pool) (idea_id eid now : String) :
    (startExecution p idea_id eid now).1.executions =
      p.executions ++ [{ id := eid, idea_id := idea_id, started_at := now,
                         status := "in_progress", steps := [], logs := [],
                         completed_at := none, enotes := none }] := by
  show (updateIdeaStatus _ idea_id "in_progress" none now).1.executions = _
  rw [updateIdeaStatus_executions]

/-- C8: `update_idea_status` on an absent id returns `False` and leaves the
whole record-store state unchanged; on a present id it updates exactly the
first matching record — setting `status`, stamping `updated_at`, merging
non-empty notes — and returns `True`. -/
theorem C8_update_idea_status :
    (∀ (p : Pool) (idea_id status : String) (idea_notes : Option String)
        (now : String), (∀ i ∈ p.ideas, i.id ≠ idea_id) →
        updateIdeaStatus p idea_id status idea_notes now = (p, false)) ∧
    (∀ (p : Pool) (idea_id status : String) (idea_notes : Option String)
        (now : String) (k : Nat) (i : Idea),
        p.ideas[k]? = some i → i.id = idea_id →
        (∀ j b, j < k → p.ideas[j]? = some b → b.id ≠ idea_id) →
        updateIdeaStatus p idea_id status idea_notes now =
          ({ p with ideas :=
               p.ideas.set k (updateIdeaFields status idea_notes now i) },
           true)) ∧
    (∀ (status now : String) (i : Idea),
        (updateIdeaFields status none now i).status = status ∧
        (updateIdeaFields status none now i).updated_at = some now ∧
        (updateIdeaFields status none now i).inotes = i.inotes) ∧
    (∀ (status s now : String) (i : Idea), s ≠ "" →
        (updateIdeaFields status (some s) now i).inotes = some s) := by
  refine ⟨updateIdeaStatus_not_found, updateIdeaStatus_found,
    fun status now i => ⟨rfl, rfl, rfl⟩, fun status s now i hs => ?_⟩
  simp [updateIdeaFields, notesTruthy, hs]

/-- C8 witness: `poolC8` with an absent id `i2` and the present id `i1`. -/
theorem C8_update_idea_status_witness :
    updateIdeaStatus poolC8 "i2" "completed" none "t1" = (poolC8, false) ∧
    updateIdeaStatus poolC8 "i1" "completed" none "t1" =
      ({ poolC8 with ideas :=
           poolC8.ideas.set 0 (updateIdeaFields "completed" none "t1" ideaC8) },
       true) :=
  ⟨C8_update_idea_status.1 poolC8 "i2" "completed" none "t1" (by decide),
   C8_update_idea_status.2.1 poolC8 "i1" "completed" none "t1" 0 ideaC8
     rfl rfl (fun j _ hj _ => absurd hj (Nat.not_lt_zero j))⟩

/-- C9 (amended): `start_execution` on an idea already `in_progress`
appends a fresh execution and leaves every field of the idea unchanged
except `updated_at`, which it re-stamps to the call time (the original
claim's "does not alter any field" fails on `updated_at`). -/
theorem C9_start_execution_amended (p : Pool) (idea_id eid now : String)
    (k : Nat) (i : Idea) (hk : p.ideas[k]? = some i) (hid : i.id = idea_id)
    (hfirst : ∀ j b, j < k → p.ideas[j]? = some b → b.id ≠ idea_id)
    (hst : i.status = "in_progress") :
    (startExecution p idea_id eid now).1.ideas =
      p.ideas.set k { i with updated_at := some now } ∧
    (startExecution p idea_id eid now).1.executions =
      p.executions ++ [{ id := eid, idea_id := idea_id, started_at := now,
                         status := "in_progress", steps := [], logs := [],
                         completed_at := none, enotes := none }] ∧
    (startExecution p idea_id eid now).1.revenues = p.revenues := by
  refine ⟨?_, startExecution_executions p idea_id eid now, ?_⟩
  · have hfound := updateIdeaStatus_found
      { p with executions :=
          p.executions ++ [{ id := eid, idea_id := idea_id,
                             started_at := now, status := "in_progress",
                             steps := [], logs := [], completed_at := none,
                             enotes := none }] }
      idea_id "in_progress" none now k i hk hid hfirst
    show (updateIdeaStatus _ idea_id "in_progress" none now).1.ideas = _
    rw [hfound]
    show p.ideas.set k (updateIdeaFields "in_progress" none now i) = _
    rw [updateIdeaFields_in_progress now i hst]
  · show (updateIdeaStatus _ idea_id "in_progress" none now).1.revenues = _
    rw [updateIdeaStatus_revenues]

/-- C9 counterexample: on `poolC9`, whose only idea is already
`in_progress` with `updated_at = u0`, `start_execution` re-stamps
`updated_at` to `t1`, so the idea record is altered. -/
theorem C9_counterexample :
    poolC9.ideas.map Idea.status = ["in_progress"] ∧
    poolC9.ideas.map Idea.updated_at = [some "u0"] ∧
    (startExecution poolC9 "i1" "e1" "t1").1.ideas.map Idea.updated_at =
      [some "t1"] ∧
    (startExecution poolC9 "i1" "e1" "t1").1.ideas ≠ poolC9.ideas := by
  refine ⟨rfl, rfl, rfl, by decide⟩

/-- C9 witness: the amended statement applied to `poolC9`. -/
theorem C9_start_execution_witness :
    (startExecution poolC9 "i1" "e1" "t1").1.ideas =
      poolC9.ideas.set 0 { ideaC9 with updated_at := some "t1" } ∧
    (startExecution poolC9 "i1" "e1" "t1").1.executions =
      poolC9.executions ++ [{ id := "e1", idea_id := "i1",
                              started_at := "t1", status := "in_progress",
                              steps := [], logs := [], completed_at := none,
                              enotes := none }] ∧
    (startExecution poolC9 "i1" "e1" "t1").1.revenues = poolC9.revenues :=
  C9_start_execution_amended poolC9 "i1" "e1" "t1" 0 ideaC9 rfl rfl
    (fun j _ hj _ => absurd hj (Nat.not_lt_zero j)) rfl

/-- C2: a missing, unreadable or unparsable backing file degrades the
corresponding collection to the empty initial collection at construction,
and when all three files are bad the store behaves under every subsequent
operation sequence exactly like a freshly-initialized empty store (all
operations are total, so none can crash or surface an error). -/
theorem C2_load_fallback (f : BackingFiles) :
    (badFile f.ideasFile → (loadData f).ideas = []) ∧
    (badFile f.execsFile → (loadData f).executions = []) ∧
    (badFile f.revsFile → (loadData f).revenues = []) ∧
    (badFile f.ideasFile → badFile f.execsFile → badFile f.revsFile →
      ∀ ops, runOps (loadData f) ops =
        runOps { ideas := [], executions := [], revenues := [] } ops) := by
  refine ⟨?_, ?_, ?_, ?_⟩
  · intro h; simp [loadData, loadJson_bad _ _ h]
  · intro h; simp [loadData, loadJson_bad _ _ h]
  · intro h; simp [loadData, loadJson_bad _ _ h]
  · intro h1 h2 h3 ops
    have hLoad : loadData f = { ideas := [], executions := [], revenues := [] } := by
      simp [loadData, loadJson_bad _ _ h1, loadJson_bad _ _ h2,
        loadJson_bad _ _ h3]
    rw [hLoad]

/-- C2 witness: `filesBadAll` (missing, corrupt, missing) loads as the
empty store and runs an operation like a fresh store. -/
theorem C2_load_fallback_witness :
    badFile filesBadAll.ideasFile ∧ badFile filesBadAll.execsFile ∧
    badFile filesBadAll.revsFile ∧
    (loadData filesBadAll).ideas = [] ∧
    (loadData filesBadAll).executions = [] ∧
    (loadData filesBadAll).revenues = [] ∧
    runOps (loadData filesBadAll)
        [PoolOp.updateIdea "x" "completed" none "t"] =
      runOps { ideas := [], executions := [], revenues := [] }
        [PoolOp.updateIdea "x" "completed" none "t"] :=
  ⟨Or.inl rfl, Or.inr rfl, Or.inl rfl,
   (C2_load_fallback filesBadAll).1 (Or.inl rfl),
   (C2_load_fallback filesBadAll).2.1 (Or.inr rfl),
   (C2_load_fallback filesBadAll).2.2.1 (Or.inl rfl),
   (C2_load_fallback filesBadAll).2.2.2 (Or.inl rfl) (Or.inr rfl)
     (Or.inl rfl) _⟩

/-- C1 counterexample: on `poolC1`, whose only execution already has the
terminal status `success` (with `completed_at = tc`), a later
`complete_execution` call on the same exec id changes the status to
`failed` and re-stamps `completed_at`, so the status does not transition
exactly once. -/
theorem C1_counterexample :
    isTerminal execC1.status = true ∧
    poolC1.executions.map execMeta = [("e1", "success", some "tc")] ∧
    (applyOp poolC1 (PoolOp.completeExec "e1" false none "t1")).executions.map
        execMeta = [("e1", "failed", some "t1")] :=
  ⟨rfl, rfl, rfl⟩

/-- C1 (amended): every execution created by `start_execution` starts with
status `in_progress` and no `completed_at`; no operation other than
`complete_execution` ever changes an existing execution's status or
`completed_at`; and `complete_execution` always sets the first matching
execution's status to a terminal value (`success`/`failed`), stamping
`completed_at`, leaving all other executions unchanged.  (The original
claim's "transitions exactly once" fails: a repeated `complete_execution`
on the same exec id re-writes status and `completed_at`.) -/
theorem C1_status_transitions :
    (∀ (p : Pool) (idea_id eid now : String),
        (startExecution p idea_id eid now).1.executions.map execMeta =
          p.executions.map execMeta ++ [(eid, "in_progress", none)]) ∧
    (∀ (p : Pool) (op : PoolOp), isCompleteOp op = false →
        ((applyOp p op).executions.map execMeta).take p.executions.length =
          p.executions.map execMeta) ∧
    (∀ (p : Pool) (exec_id : String) (success : Bool)
        (c_notes : Option String) (now : String) (q : Pool),
        completeExecution p exec_id success c_notes now = (q, true) →
        ∃ k e, p.executions[k]? = some e ∧ e.id = exec_id ∧
          isTerminal (completeExecFields success c_notes now e).status = true ∧
          q.executions = p.executions.set k
            (completeExecFields success c_notes now e)) := by
  refine ⟨?_, ?_, ?_⟩
  · intro p idea_id eid now
    rw [startExecution_executions, List.map_append]
    rfl
  · intro p op hop
    cases op with
    | addIdea input ts now => exact take_map_self _ _
    | updateIdea a b c d =>
        show ((updateIdeaStatus p a b c d).1.executions.map execMeta).take
            p.executions.length = p.executions.map execMeta
        rw [updateIdeaStatus_executions]
        exact take_map_self _ _
    | startExec a e n =>
        show (((startExecution p a e n).1.executions).map execMeta).take
            p.executions.length = p.executions.map execMeta
        rw [startExecution_executions]
        exact take_map_append _ _ _
    | addStep a b c d =>
        show ((addExecutionStep p a b c d).1.executions.map execMeta).take
            p.executions.length = p.executions.map execMeta
        rw [addExecutionStep_meta]
        exact take_map_self _ _
    | addLog a b c =>
        show ((addExecutionLog p a b c).1.executions.map execMeta).take
            p.executions.length = p.executions.map execMeta
        rw [addExecutionLog_meta]
        exact take_map_self _ _
    | completeExec a b c d => exact absurd hop (by simp [isCompleteOp])
    | addRev a b c d e f => exact take_map_self _ _
  · intro p exec_id success c_notes now q h
    unfold completeExecution at h
    split at h
    · rename_i hu
      injection h with h1 h2
      exact absurd h2 (by simp)
    · rename_i es iid hu
      injection h with hq _
      obtain ⟨k, e, hk, hid, hiid, hset⟩ :=
        completeInList_some exec_id success c_notes now p.executions es iid hu
      refine ⟨k, e, hk, hid, ?_, ?_⟩
      · cases success <;> rfl
      · rw [← hq, updateIdeaStatus_executions]
        exact hset

/-- C1 witness: a non-complete operation on `poolC1` preserves the stored
execution's status and completion timestamp. -/
theorem C1_status_transitions_witness :
    ((applyOp poolC1 (PoolOp.addLog "e1" "x" "t2")).executions.map
        execMeta).take poolC1.executions.length =
      poolC1.executions.map execMeta :=
  C1_status_transitions.2.1 poolC1 (PoolOp.addLog "e1" "x" "t2") rfl
